import Mathlib

/-!
# Verification of the Mellon Python class parser (`src/parser.py`)

A shallow embedding of the parser's data model and operations:

* `Value` models the Python values that `PythonClassParser.parse_value`
  can produce (scalars, lists, tuples, sets, insertion-ordered dicts).
* `Ast` models the subset of Python `ast` expression nodes the parser
  dispatches on; nodes outside that subset are collapsed into `Ast.other`,
  which carries what `ast.unparse` would return for them (`none` when
  unparsing would raise).
* Fallible Python operations are modelled in the `Except PyErr` monad;
  `try/except` blocks become `match` on the `Except` result.

Floating-point constants are outside the model (scalar constants are
booleans, integers, strings, bytes and `None`); Python's dict/set key
equality is modelled by `pyEq`, including the `True == 1` / `False == 0`
cross-type identification, on the hashable values that can actually reach
a key comparison.
-/

/-- Python exception values, reduced to the kinds the parser can raise:
`TypeError` (unhashable dict key / set element), failures of `ast.unparse`,
and `IndexError` from list indexing. -/
inductive PyErr where
  | typeErr (m : String)
  | unparseFail (m : String)
  | indexErr (m : String)
  deriving DecidableEq, Repr

/-- The message text carried by an exception (what `{e}` interpolates to). -/
def PyErr.msg : PyErr → String
  | .typeErr m => m
  | .unparseFail m => m
  | .indexErr m => m

/-- In-memory Python values built by `parse_value`.  A `VDict` is an
insertion-ordered association list (Python 3.7+ dicts preserve insertion
order); a `VSet` records its elements in insertion order. -/
inductive Value where
  | VNone
  | VBool (b : Bool)
  | VInt (n : Int)
  | VStr (s : String)
  | VBytes (bs : List Nat)
  | VList (xs : List Value)
  | VTuple (xs : List Value)
  | VSet (xs : List Value)
  | VDict (xs : List (Value × Value))
  deriving Repr

mutual
/-- Python `==` as used on dict keys and set elements.  Only hashable
values ever reach a key comparison, so list/set/dict comparisons
(unreachable there) are folded into the catch-all `false`. Mirrors the
`True == 1`, `False == 0` identification of Python booleans with ints. -/
def pyEq : Value → Value → Bool
  | .VNone, .VNone => true
  | .VBool a, .VBool b => a == b
  | .VBool a, .VInt n => (if a then (1 : Int) else 0) == n
  | .VInt n, .VBool a => n == (if a then (1 : Int) else 0)
  | .VInt a, .VInt b => a == b
  | .VStr a, .VStr b => a == b
  | .VBytes a, .VBytes b => a == b
  | .VTuple a, .VTuple b => pyEqList a b
  | _, _ => false

/-- Elementwise `pyEq` on tuple contents. -/
def pyEqList : List Value → List Value → Bool
  | [], [] => true
  | a :: as', b :: bs' => pyEq a b && pyEqList as' bs'
  | _, _ => false
end

mutual
/-- Python hashability: lists, sets and dicts are unhashable; a tuple is
hashable iff all its elements are. -/
def hashable : Value → Bool
  | .VList _ => false
  | .VSet _ => false
  | .VDict _ => false
  | .VTuple xs => hashableList xs
  | _ => true

/-- All elements hashable. -/
def hashableList : List Value → Bool
  | [] => true
  | x :: xs => hashable x && hashableList xs
end

/-- `d[k] = v` on an insertion-ordered dict: if a `pyEq`-equal key is
present, the value at its (original) position is replaced and the stored
key kept; otherwise the pair is appended. -/
def dictInsert (d : List (Value × Value)) (k v : Value) : List (Value × Value) :=
  match d with
  | [] => [(k, v)]
  | (k', v') :: rest =>
      if pyEq k' k then (k', v) :: rest else (k', v') :: dictInsert rest k v

/-- `s.add(x)` on an insertion-ordered set: a duplicate (by `pyEq`) is
dropped, keeping the first occurrence. -/
def setInsert (s : List Value) (x : Value) : List Value :=
  match s with
  | [] => [x]
  | y :: rest => if pyEq y x then y :: rest else y :: setInsert rest x

/-- The Python `in` substring test: `strContains hay needle` is
`needle in hay`. -/
def listContainsSub (hay needle : List Char) : Bool :=
  match hay with
  | [] => needle.isEmpty
  | _ :: t => needle.isPrefixOf hay || listContainsSub t needle

/-- `needle in hay` on strings. -/
def strContains (hay needle : String) : Bool :=
  listContainsSub hay.toList needle.toList

/-- The Python `ast` expression nodes `parse_value` dispatches on.
`constant` is `ast.Constant`; `strNode`/`numNode`/`bytesNode` model the
pre-3.8 `ast.Str`/`ast.Num`/`ast.Bytes` branches; `other` stands for any
node shape outside the handled subset and carries the text `ast.unparse`
would produce for it (`none` when unparsing raises). -/
inductive Ast where
  | constant (v : Value)
  | dict (pairs : List (Ast × Ast))
  | list (elts : List Ast)
  | tuple (elts : List Ast)
  | set (elts : List Ast)
  | name (id : String)
  | strNode (s : String)
  | numNode (n : Int)
  | bytesNode (bs : List Nat)
  | other (unparsed : Option String)
  deriving Repr

mutual
/-- `PythonClassParser.parse_value` (src/parser.py:30-68), with Python
exceptions modelled by `Except PyErr`.  The only raising operations are
the dict-entry assignment `result_dict[key] = val` and the set-element
insertion, which throw `TypeError` on an unhashable key/element; all
sub-node reconstructions go through `_safe_parse` (inlined here as a
`match` on the recursive call), which catches everything. -/
def parseValueE : Ast → Except PyErr Value
  | .constant v => .ok v
  | .dict pairs => do
      let d ← parseDictPairs pairs []
      return .VDict d
  | .list elts => .ok (.VList (parseElems elts "<parse_error_elem>"))
  | .tuple elts => .ok (.VTuple (parseElems elts "<parse_error_elem>"))
  | .set elts => do
      let s ← parseSetElems elts []
      return .VSet s
  | .name id =>
      if id = "True" then .ok (.VBool true)
      else if id = "False" then .ok (.VBool false)
      else if id = "None" then .ok .VNone
      else .ok (.VStr id)
  | .strNode s => .ok (.VStr s)
  | .numNode n => .ok (.VInt n)
  | .bytesNode bs => .ok (.VBytes bs)
  | .other u =>
      match u with
      | some s => .ok (.VStr s)
      | none => .ok (.VStr "<unparse_error>")

/-- The loop body of the `ast.Dict` branch: each key and value is parsed
through `_safe_parse` (failure replaced by a placeholder string), then
`result_dict[key] = val` raises `TypeError` when the key is unhashable. -/
def parseDictPairs : List (Ast × Ast) → List (Value × Value) →
    Except PyErr (List (Value × Value))
  | [], acc => .ok acc
  | (k, v) :: rest, acc =>
      let key := match parseValueE k with
                 | .ok x => x
                 | .error _ => .VStr "<parse_error_key>"
      let val := match parseValueE v with
                 | .ok x => x
                 | .error _ => .VStr "<parse_error_val>"
      if hashable key then
        parseDictPairs rest (dictInsert acc key val)
      else
        .error (.typeErr "unhashable type")

/-- The `ast.List`/`ast.Tuple` comprehensions: every element through
`_safe_parse` with the given fallback; never raises. -/
def parseElems : List Ast → String → List Value
  | [], _ => []
  | e :: rest, fb =>
      (match parseValueE e with
       | .ok x => x
       | .error _ => .VStr fb) :: parseElems rest fb

/-- The `ast.Set` comprehension: elements through `_safe_parse`, then
added to the set, raising `TypeError` on an unhashable element. -/
def parseSetElems : List Ast → List Value → Except PyErr (List Value)
  | [], acc => .ok acc
  | e :: rest, acc =>
      let x := match parseValueE e with
               | .ok v => v
               | .error _ => .VStr "<parse_error_elem>"
      if hashable x then
        parseSetElems rest (setInsert acc x)
      else
        .error (.typeErr "unhashable type")
end

/-- `PythonClassParser._safe_parse` (src/parser.py:70-76): call
`parse_value`, catching any exception and returning the fallback. -/
def safeParse (node : Ast) (fallback : String) : Value :=
  match parseValueE node with
  | .ok v => v
  | .error _ => .VStr fallback

mutual
/-- `repr` of a Python value, as `ast.unparse` renders constants.  Exact
text (string escaping, bytes rendering, one-element tuples) is
approximated; nothing in the parser inspects this text beyond substring
tests on whole base strings. -/
def reprValue : Value → String
  | .VNone => "None"
  | .VBool true => "True"
  | .VBool false => "False"
  | .VInt n => toString n
  | .VStr s => "'" ++ s ++ "'"
  | .VBytes bs => "b'" ++ String.intercalate " " (bs.map toString) ++ "'"
  | .VList xs => "[" ++ String.intercalate ", " (reprValueList xs) ++ "]"
  | .VTuple xs => "(" ++ String.intercalate ", " (reprValueList xs) ++ ")"
  | .VSet xs => "\x7b" ++ String.intercalate ", " (reprValueList xs) ++ "\x7d"
  | .VDict xs => "\x7b" ++ String.intercalate ", " (reprValuePairs xs) ++ "\x7d"

/-- Renders each element of a list of values. -/
def reprValueList : List Value → List String
  | [] => []
  | x :: xs => reprValue x :: reprValueList xs

/-- Renders each `key: value` pair of a dict. -/
def reprValuePairs : List (Value × Value) → List String
  | [] => []
  | (k, v) :: xs => (reprValue k ++ ": " ++ reprValue v) :: reprValuePairs xs
end

mutual
/-- The standard library's `ast.unparse`, modelled on the embedded node
subset: it re-emits source text for the node, and raises exactly when the
tree contains an `Ast.other none` node (a shape `ast.unparse` cannot
handle). -/
def unparseAst : Ast → Except PyErr String
  | .constant v => .ok (reprValue v)
  | .dict pairs => do
      let ps ← unparsePairs pairs
      return "\x7b" ++ String.intercalate ", " ps ++ "\x7d"
  | .list elts => do
      let es ← unparseAstList elts
      return "[" ++ String.intercalate ", " es ++ "]"
  | .tuple elts => do
      let es ← unparseAstList elts
      return "(" ++ String.intercalate ", " es ++ ")"
  | .set elts => do
      let es ← unparseAstList elts
      return "\x7b" ++ String.intercalate ", " es ++ "\x7d"
  | .name id => .ok id
  | .strNode s => .ok ("'" ++ s ++ "'")
  | .numNode n => .ok (toString n)
  | .bytesNode bs => .ok (reprValue (.VBytes bs))
  | .other (some s) => .ok s
  | .other none => .error (.unparseFail "cannot unparse node")

/-- Unparses every element of a list of nodes. -/
def unparseAstList : List Ast → Except PyErr (List String)
  | [] => .ok []
  | e :: rest => do
      let s ← unparseAst e
      let ss ← unparseAstList rest
      return s :: ss

/-- Unparses every `key: value` pair of a dict node. -/
def unparsePairs : List (Ast × Ast) → Except PyErr (List String)
  | [] => .ok []
  | (k, v) :: rest => do
      let ks ← unparseAst k
      let vs ← unparseAst v
      let ss ← unparsePairs rest
      return (ks ++ ": " ++ vs) :: ss
end

/-- `PythonClassParser._unparse_with_fallback` (src/parser.py:78-84):
`ast.unparse` with any exception caught and replaced by the placeholder. -/
def unparseWithFallback (node : Ast) : String :=
  match unparseAst node with
  | .ok s => s
  | .error _ => "<unparse_error>"

/-- A formal parameter (`ast.arg`): its name and optional annotation. -/
structure Arg where
  arg : String
  annotation : Option Ast

/-- `ast.arguments`: the argument specification of a function definition. -/
structure Arguments where
  posonlyargs : List Arg
  args : List Arg
  defaults : List Ast
  kwonlyargs : List Arg
  kw_defaults : List (Option Ast)
  vararg : Option Arg
  kwarg : Option Arg

/-- The statement shapes `_process_class_item` distinguishes inside a class
body.  `exprStmt` covers bare-expression statements (docstrings among
them); `otherStmt` stands for every other statement kind, which the parser
silently ignores. -/
inductive Stmt where
  | assign (targets : List Ast) (value : Ast)
  | annAssign (target : Ast) ( annotation : Ast) (value : Option Ast)
  | funcDef (name : String) (args : Arguments) (decorator_list : List Ast)
      (returns : Option Ast) (body : List Stmt)
  | exprStmt (e : Ast)
  | otherStmt

/-- `ast.ClassDef`: a class-definition node, with its body statements in
source order. -/
structure ClassDef where
  name : String
  bases : List Ast
  decorator_list : List Ast
  body : List Stmt

/-- The standard library's `ast.get_docstring`: the first statement's
string constant, when there is one (text cleanup ignored). -/
def getDocstring (body : List Stmt) : Option String :=
  match body with
  | .exprStmt (.constant (.VStr s)) :: _ => some s
  | _ => none

/-- One entry of the extracted `args` list: `{'name': ..., 'annotation': ...}`. -/
structure ArgInfo where
  name : String
  annotation : Option String
  deriving Repr, DecidableEq

/-- One entry of the extracted `defaults` list: `{'arg': ..., 'value': ...}`. -/
structure DefaultEntry where
  arg : String
  value : Value
  deriving Repr

/-- The dictionary `_extract_arguments` returns. -/
structure ArgsBundle where
  args : List ArgInfo
  defaults : List DefaultEntry
  kwonly_args : List ArgInfo
  kwonly_defaults : List (Option Value)
  vararg : Option String
  kwarg : Option String
  deriving Repr

/-- Annotation rendering shared by positional and keyword-only parameters:
absent stays `none`; a present annotation is unparsed, with failures
replaced by the sentinel. -/
def renderAnnotation : Option Ast → Option String
  | none => none
  | some a =>
      some (match unparseAst a with
            | .ok s => s
            | .error _ => "<annotation_error>")

/-- The effective position of Python index `i` into a list of length
`len`: negative indices count from the end. -/
def wrapIdx (len : Nat) (i : Int) : Nat :=
  (if i < 0 then i + len else i).toNat

/-- Python list indexing `l[i]` with negative-index wraparound, raising
`IndexError` when out of range. -/
def pyListGet {α : Type} (l : List α) (i : Int) : Except PyErr α :=
  if i < -(l.length : Int) then .error (.indexErr "list index out of range")
  else
    match l.get? (wrapIdx l.length i) with
    | some a => .ok a
    | none => .error (.indexErr "list index out of range")

/-- The defaults loop of `_extract_arguments` (src/parser.py:233-241):
`args.args[defaults_start + i]` uses Python indexing (so a negative index
wraps around); the surrounding `try` keeps the entries appended before an
`IndexError` and logs the exception without recording it. -/
def defaultsLoop (argsL : List Arg) (start : Int) :
    List Ast → Nat → List DefaultEntry → List DefaultEntry
  | [], _, acc => acc
  | d :: rest, i, acc =>
      match pyListGet argsL (start + i) with
      | .error _ => acc
      | .ok a =>
          defaultsLoop argsL start rest (i + 1)
            (acc ++ [⟨a.arg, safeParse d "<default_parse_error>"⟩])

/-- `PythonClassParser._extract_arguments` (src/parser.py:207-281).
Positional-only parameters (`args.posonlyargs`) are never read.  The
`try` blocks around the keyword-only loops and the vararg/kwarg accesses
protect operations that cannot fail and are therefore not represented. -/
def extractArguments (a : Arguments) : ArgsBundle :=
  { args := a.args.map (fun p => ⟨p.arg, renderAnnotation p.annotation⟩),
    defaults :=
      defaultsLoop a.args ((a.args.length : Int) - a.defaults.length) a.defaults 0 [],
    kwonly_args := a.kwonlyargs.map (fun p => ⟨p.arg, renderAnnotation p.annotation⟩),
    kwonly_defaults :=
      a.kw_defaults.map (fun d =>
        match d with
        | none => none
        | some dd => some (safeParse dd "<kw_default_error>")),
    vararg := a.vararg.map (·.arg),
    kwarg := a.kwarg.map (·.arg) }

/-- An attribute entry of a `ClassRecord`: a plain assignment stores the
reconstructed value; an annotated assignment stores value plus rendered
annotation text. -/
inductive AttrVal where
  | raw (v : Value)
  | annotated (value : Value) (typ : String)
  deriving Repr

/-- One entry of the extracted `methods` list. -/
structure MethodRecord where
  name : String
  decorators : List String
  docstring : Option String
  args : ArgsBundle
  return_type : Option String
  deriving Repr

/-- The `class_info` dictionary built by `extract_class_info`
(src/parser.py:88-96), plus the `file` key `parse_file` attaches to
retained records.  `attributes` is the insertion-ordered dict of attribute
name to attribute entry. -/
structure ClassRecord where
  name : String
  bases : List String
  docstring : Option String
  attributes : List (String × AttrVal)
  methods : List MethodRecord
  decorators : List String
  parsing_errors : List String
  file : Option String := none
  deriving Repr

/-- `class_info['attributes'][k] = v`: insertion-ordered dict update keyed
by the attribute name. -/
def attrInsert (d : List (String × AttrVal)) (k : String) (v : AttrVal) :
    List (String × AttrVal) :=
  match d with
  | [] => [(k, v)]
  | (k', v') :: rest =>
      if k' == k then (k', v) :: rest else (k', v') :: attrInsert rest k v

/-- The target loop of the `ast.Assign` branch (src/parser.py:140-143):
for each `ast.Name` target the value is reconstructed by `parse_value`
(whose exceptions propagate to the caller) and stored as an attribute. -/
def processAssignTargets (targets : List Ast) (value : Ast)
    (info : ClassRecord) : Except PyErr ClassRecord :=
  match targets with
  | [] => .ok info
  | t :: rest =>
      match t with
      | .name id => do
          let parsed ← parseValueE value
          processAssignTargets rest value
            { info with attributes := attrInsert info.attributes id (.raw parsed) }
      | _ => processAssignTargets rest value info

/-- `PythonClassParser._process_class_item` (src/parser.py:136-205),
threading `class_info` through explicitly; an uncaught exception (only
`parse_value` on an assignment value can raise one) surfaces as `.error`.
The handlers around per-method decorator rendering, docstring extraction
and argument extraction guard operations that are total in the model (and
in practice), so those sentinel branches do not appear. -/
def processItemE (className : String) (item : Stmt) (info : ClassRecord) :
    Except PyErr ClassRecord :=
  match item with
  | .assign targets value => processAssignTargets targets value info
  | .annAssign target ann value =>
      match value with
      | none => .ok info
      | some v =>
          match target with
          | .name id => do
              let attrValue ← parseValueE v
              match unparseAst ann with
              | .ok s =>
                  .ok { info with
                        attributes := attrInsert info.attributes id (.annotated attrValue s) }
              | .error e =>
                  .ok { info with
                        attributes :=
                          attrInsert info.attributes id
                            (.annotated attrValue "<annotation_error>"),
                        parsing_errors := info.parsing_errors ++
                          ["Annotation error in attribute " ++ id ++ ": " ++ e.msg] }
          | _ => .ok info
  | .funcDef mname a decs rets body =>
      let m0 : MethodRecord :=
        { name := mname,
          decorators := decs.map unparseWithFallback,
          docstring := getDocstring body,
          args := extractArguments a,
          return_type := none }
      match rets with
      | none => .ok { info with methods := info.methods ++ [m0] }
      | some r =>
          match unparseAst r with
          | .ok s =>
              .ok { info with methods := info.methods ++ [{ m0 with return_type := some s }] }
          | .error e =>
              .ok { info with
                    methods := info.methods ++
                      [{ m0 with return_type := some "<return_type_error>" }],
                    parsing_errors := info.parsing_errors ++
                      ["Return type error in method " ++ mname ++ ": " ++ e.msg] }
  | .exprStmt _ => .ok info
  | .otherStmt => .ok info

/-- The fresh `class_info` dictionary (src/parser.py:88-96). -/
def initClassRecord (node : ClassDef) : ClassRecord :=
  { name := node.name, bases := [], docstring := none, attributes := [],
    methods := [], decorators := [], parsing_errors := [], file := none }

/-- The base-class loop (src/parser.py:99-106): each base is unparsed; a
failure appends an error and skips only that base. -/
def processBases (className : String) (bases : List Ast)
    (info : ClassRecord) : ClassRecord :=
  bases.foldl
    (fun acc b =>
      match unparseAst b with
      | .ok s => { acc with bases := acc.bases ++ [s] }
      | .error e =>
          { acc with parsing_errors := acc.parsing_errors ++
              ["Error parsing base class in " ++ className ++ ": " ++ e.msg] })
    info

/-- The per-item `try/except` of the body loop (src/parser.py:126-132):
an exception from `_process_class_item` is converted into an appended
`parsing_errors` entry, leaving the record otherwise as it was. -/
def processItemCaught (className : String) (info : ClassRecord) (item : Stmt) :
    ClassRecord :=
  match processItemE className item info with
  | .ok info' => info'
  | .error e =>
      { info with parsing_errors := info.parsing_errors ++
          ["Error processing item in class " ++ className ++ ": " ++ e.msg] }

/-- `PythonClassParser.extract_class_info` (src/parser.py:86-134): bases,
docstring, decorators, then the body items in order.  The `try` blocks
around docstring extraction and the decorator loop guard operations that
are total (in the model as in practice). -/
def extract_class_info (node : ClassDef) : ClassRecord :=
  let info := initClassRecord node
  let info := processBases node.name node.bases info
  let info := { info with docstring := getDocstring node.body }
  let info := { info with decorators := node.decorator_list.map unparseWithFallback }
  node.body.foldl (processItemCaught node.name) info

/-- What a Python file looks like to `parse_file`, abstracting the file
system and `ast.parse` (external collaborators): the file is unreadable,
its text fails to parse (`SyntaxError` or another exception), or it parses
and `ast.walk` yields the listed class-definition nodes in walk order. -/
inductive FileContent where
  | unreadable (exMsg : String)
  | synErr (exMsg : String)
  | parseErr (exMsg : String)
  | parsed (classes : List ClassDef)

/-- A file as seen by the scanner: its path and its content oracle. -/
structure PyFile where
  path : String
  content : FileContent

/-- An entry of an `errors` list: the dictionaries built at
src/parser.py:310, 339/347/352 and 368-372 respectively. -/
inductive ErrEntry where
  | folderErr (folder : String) (error : String)
  | fileErr (file : String) (error : String)
  | classErr (file : String) (cls : String) (error : String)
  deriving Repr

/-- `err.get("error", "")`: every entry carries an `error` message. -/
def ErrEntry.msg : ErrEntry → String
  | .folderErr _ m => m
  | .fileErr _ m => m
  | .classErr _ _ m => m

/-- The per-file result dictionary of `parse_file`. -/
structure FileResults where
  classes : List ClassRecord
  errors : List ErrEntry
  deriving Repr

/-- The filter at src/parser.py:362: at least one rendered base string
contains `"NodeBase"` as a substring. -/
def hasNodeBase (info : ClassRecord) : Bool :=
  info.bases.any (fun b => strContains b "NodeBase")

/-- `class_info['file'] = str(file_path)` (src/parser.py:364). -/
def withFile (p : String) (r : ClassRecord) : ClassRecord :=
  { r with file := some p }

/-- The `ast.walk` loop of `parse_file` (src/parser.py:357-373): extract
each class, skip it unless a base mentions `"NodeBase"`, attach the file
path and collect it.  `extract_class_info` is total, so the surrounding
`except` (which would record a class-tagged error entry) is dead. -/
def walkClasses (p : String) (nodes : List ClassDef) (res : FileResults) :
    FileResults :=
  match nodes with
  | [] => res
  | n :: rest =>
      let info := extract_class_info n
      if hasNodeBase info then
        walkClasses p rest
          { res with classes := res.classes ++ [withFile p info] }
      else
        walkClasses p rest res

/-- `PythonFolderParser.parse_file` (src/parser.py:330-375). -/
def parse_file (fp : PyFile) : FileResults :=
  match fp.content with
  | .unreadable m =>
      ⟨[], [.fileErr fp.path ("Error reading file " ++ fp.path ++ ": " ++ m)]⟩
  | .synErr m =>
      ⟨[], [.fileErr fp.path ("Syntax error in file " ++ fp.path ++ ": " ++ m)]⟩
  | .parseErr m =>
      ⟨[], [.fileErr fp.path ("Error parsing AST in file " ++ fp.path ++ ": " ++ m)]⟩
  | .parsed nodes => walkClasses fp.path nodes ⟨[], []⟩

/-- A configured root path, abstracting the file system: `files` is `none`
when the path does not exist, otherwise the list of `*.py` files `rglob`
enumerates under it, in traversal order. -/
structure Root where
  path : String
  files : Option (List PyFile)

/-- The results dictionary of `scan_folders` (src/parser.py:299-304). -/
structure ScanResult where
  scanned_folders : List String
  files : List String
  classes : List ClassRecord
  errors : List ErrEntry
  deriving Repr

/-- The per-file merge loop of `scan_folders` (src/parser.py:314-326): a
file with at least one retained class contributes its path and classes;
error entries whose message contains `"Syntax error"` are logged and
skipped, the rest are appended. -/
def scanFiles (fs : List PyFile) (acc : ScanResult) : ScanResult :=
  match fs with
  | [] => acc
  | f :: rest =>
      let fr := parse_file f
      let acc :=
        if fr.classes.isEmpty then acc
        else { acc with files := acc.files ++ [f.path],
                        classes := acc.classes ++ fr.classes }
      let acc :=
        { acc with errors := acc.errors ++
            fr.errors.filter (fun e => !strContains e.msg "Syntax error") }
      scanFiles rest acc

/-- The root loop of `scan_folders` (src/parser.py:306-326): a missing
root records one folder error and is skipped; an existing root has each of
its files merged in order. -/
def scanRoots (roots : List Root) (acc : ScanResult) : ScanResult :=
  match roots with
  | [] => acc
  | r :: rest =>
      match r.files with
      | none =>
          scanRoots rest
            { acc with errors := acc.errors ++
                [.folderErr r.path ("Folder does not exist: " ++ r.path)] }
      | some fs => scanRoots rest (scanFiles fs acc)

/-- `PythonFolderParser.scan_folders` (src/parser.py:289-328). -/
def scan_folders (roots : List Root) : ScanResult :=
  scanRoots roots ⟨roots.map (·.path), [], [], []⟩

/-! ## Reconstruction totality (claim C1) -/

/-- The condition under which `parse_value` itself cannot raise: at the
top level, every dict key and every set element must reconstruct to a
hashable value (sub-nodes are protected by `_safe_parse`, so only the
top-level container's own insertions can throw). -/
def topSafe : Ast → Bool
  | .dict pairs => pairs.all (fun kv => hashable (safeParse kv.1 "<parse_error_key>"))
  | .set elts => elts.all (fun e => hashable (safeParse e "<parse_error_elem>"))
  | _ => true

theorem parseDictPairs_isOk (pairs : List (Ast × Ast)) (acc : List (Value × Value))
    (h : ∀ kv ∈ pairs, hashable (safeParse kv.1 "<parse_error_key>") = true) :
    (parseDictPairs pairs acc).isOk = true := by
  induction pairs generalizing acc with
  | nil => rfl
  | cons kv rest ih =>
      obtain ⟨k, v⟩ := kv
      have hk := h (k, v) (by simp)
      simp only [safeParse] at hk
      rw [parseDictPairs]
      simp only [hk, if_true]
      exact ih _ (fun kv hkv => h kv (List.mem_cons_of_mem _ hkv))

theorem parseSetElems_isOk (elts : List Ast) (acc : List Value)
    (h : ∀ e ∈ elts, hashable (safeParse e "<parse_error_elem>") = true) :
    (parseSetElems elts acc).isOk = true := by
  induction elts generalizing acc with
  | nil => rfl
  | cons e rest ih =>
      have he := h e (by simp)
      simp only [safeParse] at he
      rw [parseSetElems]
      simp only [he, if_true]
      exact ih _ (fun e' he' => h e' (List.mem_cons_of_mem _ he'))

/-- C1 (amended): `parse_value` never raises on any node whose top-level
mapping keys and set elements all reconstruct to hashable values — the
grammar subset minus mapping/set literals with unhashable (list/set/dict
valued) keys or elements.  On such nodes it returns a value or a
placeholder string; every sub-node failure is absorbed by `_safe_parse`. -/
theorem parse_value_total_of_topSafe (node : Ast) (h : topSafe node = true) :
    (parseValueE node).isOk = true := by
  cases node with
  | dict pairs =>
      simp only [topSafe, List.all_eq_true] at h
      rw [parseValueE]
      have hok := parseDictPairs_isOk pairs [] h
      cases hres : parseDictPairs pairs [] with
      | ok d => simp [hres, Except.isOk, Except.toBool]
      | error e => rw [hres] at hok; simp [Except.isOk, Except.toBool] at hok
  | set elts =>
      simp only [topSafe, List.all_eq_true] at h
      rw [parseValueE]
      have hok := parseSetElems_isOk elts [] h
      cases hres : parseSetElems elts [] with
      | ok s => simp [hres, Except.isOk, Except.toBool]
      | error e => rw [hres] at hok; simp [Except.isOk, Except.toBool] at hok
  | constant v => rfl
  | list elts => rfl
  | tuple elts => rfl
  | name id => by_cases h1 : id = "True" <;> by_cases h2 : id = "False" <;>
      by_cases h3 : id = "None" <;> simp [parseValueE, h1, h2, h3, Except.isOk, Except.toBool]
  | strNode s => rfl
  | numNode n => rfl
  | bytesNode bs => rfl
  | other u => cases u <;> rfl

/-- C1 counterexample: the claim as stated ("never raises, for any input
node") fails — a mapping literal whose key is a list literal (`{[]: 1}`,
syntactically valid) makes `parse_value` raise `TypeError` at the
dict-entry assignment `result_dict[key] = val`, because the reconstructed
key is unhashable. -/
theorem parse_value_raises_on_unhashable_key :
    parseValueE (Ast.dict [(Ast.list [], Ast.constant (Value.VInt 1))]) =
      Except.error (PyErr.typeErr "unhashable type") := rfl

/-- Witness for the amended C1 theorem at a concrete mapping literal with
a hashable (string) key and a list value. -/
theorem parse_value_total_witness :
    (parseValueE (Ast.dict [(Ast.constant (Value.VStr "a"),
        Ast.list [Ast.constant (Value.VInt 1)])])).isOk = true :=
  parse_value_total_of_topSafe _ (by rfl)

/-! ## Round-trip on scalar-only containers (claim C4) -/

/-- Scalar values: number, string, boolean, bytes, `None`. -/
def scalarV : Value → Bool
  | .VNone => true
  | .VBool _ => true
  | .VInt _ => true
  | .VStr _ => true
  | .VBytes _ => true
  | _ => false

/-- A node that is a scalar constant literal. -/
def isScalarConst : Ast → Bool
  | .constant v => scalarV v
  | _ => false

/-- The constant value carried by a `constant` node (junk elsewhere). -/
def constValue : Ast → Value
  | .constant v => v
  | _ => .VNone

/-- A mapping, sequence or set literal whose keys and elements are all
scalar constants. -/
def scalarContainer : Ast → Bool
  | .dict pairs => pairs.all (fun kv => isScalarConst kv.1 && isScalarConst kv.2)
  | .list elts => elts.all isScalarConst
  | .tuple elts => elts.all isScalarConst
  | .set elts => elts.all isScalarConst
  | _ => false

/-- The literal's evaluated form, per Python evaluation of a container
display whose parts are scalar constants: lists/tuples evaluate
elementwise, a dict display inserts its pairs in order (last write wins),
a set display adds its elements in order (first occurrence kept). -/
def literalEval : Ast → Value
  | .dict pairs =>
      .VDict (pairs.foldl (fun d kv => dictInsert d (constValue kv.1) (constValue kv.2)) [])
  | .list elts => .VList (elts.map constValue)
  | .tuple elts => .VTuple (elts.map constValue)
  | .set elts => .VSet (elts.foldl (fun s e => setInsert s (constValue e)) [])
  | n => constValue n

theorem scalar_hashable (v : Value) (h : scalarV v = true) : hashable v = true := by
  cases v <;> simp_all [scalarV, hashable]

theorem parseElems_scalar (elts : List Ast) (fb : String)
    (h : ∀ e ∈ elts, isScalarConst e = true) :
    parseElems elts fb = elts.map constValue := by
  induction elts with
  | nil => rfl
  | cons e rest ih =>
      have he := h e (by simp)
      cases e <;> simp [isScalarConst] at he
      rw [parseElems]
      simp [parseValueE, constValue, ih (fun e' he' => h e' (List.mem_cons_of_mem _ he'))]

theorem parseDictPairs_scalar (pairs : List (Ast × Ast)) (acc : List (Value × Value))
    (h : ∀ kv ∈ pairs, (isScalarConst kv.1 && isScalarConst kv.2) = true) :
    parseDictPairs pairs acc =
      .ok (pairs.foldl (fun d kv => dictInsert d (constValue kv.1) (constValue kv.2)) acc) := by
  induction pairs generalizing acc with
  | nil => rfl
  | cons kv rest ih =>
      obtain ⟨k, v⟩ := kv
      have hkv := h (k, v) (by simp)
      simp only [Bool.and_eq_true] at hkv
      obtain ⟨hk, hv⟩ := hkv
      cases k <;> simp [isScalarConst] at hk
      cases v <;> simp [isScalarConst] at hv
      rw [parseDictPairs]
      simp [parseValueE, scalar_hashable _ hk, constValue,
        ih _ (fun kv' hkv' => h kv' (List.mem_cons_of_mem _ hkv'))]

theorem parseSetElems_scalar (elts : List Ast) (acc : List Value)
    (h : ∀ e ∈ elts, isScalarConst e = true) :
    parseSetElems elts acc = .ok (elts.foldl (fun s e => setInsert s (constValue e)) acc) := by
  induction elts generalizing acc with
  | nil => rfl
  | cons e rest ih =>
      have he := h e (by simp)
      cases e <;> simp [isScalarConst] at he
      rw [parseSetElems]
      simp [parseValueE, scalar_hashable _ he, constValue,
        ih _ (fun e' he' => h e' (List.mem_cons_of_mem _ he'))]

/-- C4: reconstructing a mapping, sequence (list or tuple) or set literal
whose keys and elements are all scalar constants yields exactly the
literal's evaluated form (`literalEval`): the round-trip between the
syntax tree and evaluation holds on the scalar fragment. -/
theorem parse_value_roundtrip_scalar (node : Ast) (h : scalarContainer node = true) :
    parseValueE node = .ok (literalEval node) := by
  cases node with
  | dict pairs =>
      simp only [scalarContainer, List.all_eq_true] at h
      rw [parseValueE, literalEval]
      rw [parseDictPairs_scalar pairs [] h]
      rfl
  | list elts =>
      simp only [scalarContainer, List.all_eq_true] at h
      rw [parseValueE, literalEval, parseElems_scalar elts _ h]
  | tuple elts =>
      simp only [scalarContainer, List.all_eq_true] at h
      rw [parseValueE, literalEval, parseElems_scalar elts _ h]
  | set elts =>
      simp only [scalarContainer, List.all_eq_true] at h
      rw [parseValueE, literalEval]
      rw [parseSetElems_scalar elts [] h]
      rfl
  | constant v => simp [scalarContainer] at h
  | name id => simp [scalarContainer] at h
  | strNode s => simp [scalarContainer] at h
  | numNode n => simp [scalarContainer] at h
  | bytesNode bs => simp [scalarContainer] at h
  | other u => simp [scalarContainer] at h

/-- Witness for the round-trip theorem at `{"a": 1, "b": (2, 3)}`-style
input: a concrete scalar-only mapping literal. -/
theorem parse_value_roundtrip_witness :
    parseValueE (Ast.dict [(Ast.constant (Value.VStr "a"), Ast.constant (Value.VInt 1)),
        (Ast.constant (Value.VStr "b"), Ast.constant (Value.VBool true))]) =
      .ok (literalEval (Ast.dict [(Ast.constant (Value.VStr "a"), Ast.constant (Value.VInt 1)),
        (Ast.constant (Value.VStr "b"), Ast.constant (Value.VBool true))])) :=
  parse_value_roundtrip_scalar _ (by rfl)

/-! ## Mapping reconstruction: order and collisions (claim C5) -/

/-- The (key, value) reconstruction of one dict pair, exactly as the
`ast.Dict` branch computes it: each side through `_safe_parse` with its
placeholder. -/
def reconPair (kv : Ast × Ast) : Value × Value :=
  (safeParse kv.1 "<parse_error_key>", safeParse kv.2 "<parse_error_val>")

/-- Building a dict by inserting the pairs left to right into an empty
dict. -/
def dictFold (ps : List (Value × Value)) : List (Value × Value) :=
  ps.foldl (fun d kv => dictInsert d kv.1 kv.2) []

/-- First occurrences of a key list under `pyEq`: the key order a Python
dict built from those keys ends up with. -/
def dedupKeys (ks : List Value) : List Value :=
  ks.foldl (fun acc k => if acc.any (fun k' => pyEq k' k) then acc else acc ++ [k]) []

/-- Replace the value of the first `pyEq`-matching key, keeping the stored
key and every position. -/
def updateFirst : List (Value × Value) → Value → Value → List (Value × Value)
  | [], _, _ => []
  | (k', v') :: rest, k, v =>
      if pyEq k' k then (k', v) :: rest else (k', v') :: updateFirst rest k v

theorem dictInsert_map_fst (d : List (Value × Value)) (k v : Value) :
    (dictInsert d k v).map Prod.fst =
      if d.any (fun p => pyEq p.1 k) then d.map Prod.fst else d.map Prod.fst ++ [k] := by
  induction d with
  | nil => rfl
  | cons p rest ih =>
      obtain ⟨k', v'⟩ := p
      by_cases h : pyEq k' k = true
      · simp [dictInsert, h]
      · simp only [Bool.not_eq_true] at h
        simp [dictInsert, h, ih]
        by_cases h2 : rest.any (fun p => pyEq p.1 k) = true <;> simp [h, h2]

theorem dictFold_map_fst (ps : List (Value × Value)) :
    (dictFold ps).map Prod.fst = dedupKeys (ps.map Prod.fst) := by
  suffices h : ∀ acc : List (Value × Value),
      ((ps.foldl (fun d kv => dictInsert d kv.1 kv.2) acc).map Prod.fst =
        (ps.map Prod.fst).foldl
          (fun ks k => if ks.any (fun k' => pyEq k' k) then ks else ks ++ [k])
          (acc.map Prod.fst)) from h []
  have hany : ∀ (acc : List (Value × Value)) (k : Value),
      ((acc.map Prod.fst).any fun k' => pyEq k' k) = acc.any (fun p => pyEq p.1 k) := by
    intro acc k
    induction acc with
    | nil => rfl
    | cons q qs ihq => simp [List.any_cons, ihq]
  induction ps with
  | nil => intro acc; rfl
  | cons p rest ih =>
      intro acc
      simp only [List.foldl_cons, List.map_cons]
      rw [ih, dictInsert_map_fst]
      congr 1
      rw [hany]

theorem dictInsert_eq_updateFirst (d : List (Value × Value)) (k v : Value) :
    dictInsert d k v =
      if d.any (fun p => pyEq p.1 k) then updateFirst d k v else d ++ [(k, v)] := by
  induction d with
  | nil => rfl
  | cons p rest ih =>
      obtain ⟨k', v'⟩ := p
      by_cases h : pyEq k' k = true
      · simp [dictInsert, updateFirst, h]
      · simp only [Bool.not_eq_true] at h
        simp only [dictInsert, updateFirst, h, Bool.false_eq_true, if_false, List.any_cons]
        rw [ih]
        by_cases h2 : rest.any (fun p => pyEq p.1 k) = true <;> simp [h2]

theorem parseDictPairs_eq_dictFold (pairs : List (Ast × Ast))
    (h : ∀ kv ∈ pairs, hashable (reconPair kv).1 = true) :
    ∀ acc, parseDictPairs pairs acc =
      .ok (pairs.foldl (fun d kv => dictInsert d (reconPair kv).1 (reconPair kv).2) acc) := by
  induction pairs with
  | nil => intro acc; rfl
  | cons kv rest ih =>
      intro acc
      obtain ⟨k, v⟩ := kv
      have hk := h (k, v) (by simp)
      simp only [reconPair, safeParse] at hk
      rw [parseDictPairs]
      simp only [hk, if_true]
      rw [ih (fun kv' hkv' => h kv' (List.mem_cons_of_mem _ hkv'))]
      rfl

/-- C5 (amended): for a mapping literal whose reconstructed keys are
hashable, `parse_value` returns the insertion-ordered mapping obtained by
inserting the reconstructed pairs left to right; keys keep first-occurrence
order (`dedupKeys`), and two reconstructed keys collide exactly when they
are equal as reconstructed values (`pyEq`) — which can happen without
duplicate source literal keys — in which case the last-written value wins
at the first key's original position. -/
theorem parse_value_dict_order_collision (pairs : List (Ast × Ast))
    (h : ∀ kv ∈ pairs, hashable (reconPair kv).1 = true) :
    parseValueE (Ast.dict pairs) = .ok (.VDict (dictFold (pairs.map reconPair))) ∧
    (∀ ps : List (Value × Value), (dictFold ps).map Prod.fst = dedupKeys (ps.map Prod.fst)) ∧
    (∀ (d : List (Value × Value)) (k v : Value), dictInsert d k v =
      if d.any (fun p => pyEq p.1 k) then updateFirst d k v else d ++ [(k, v)]) := by
  refine ⟨?_, dictFold_map_fst, dictInsert_eq_updateFirst⟩
  rw [parseValueE, parseDictPairs_eq_dictFold pairs h]
  simp [dictFold, List.foldl_map]

/-- C5 counterexample: the claim says reconstructed keys "collide only if
the source uses duplicate literal keys"; here the two literal keys are
distinct nodes (a bare name `x` and the string constant `"x"`), yet both
reconstruct to the string `"x"` and collide, the last value winning. -/
theorem parse_value_dict_collision_counterexample :
    parseValueE (Ast.dict [(Ast.name "x", Ast.constant (Value.VInt 1)),
        (Ast.constant (Value.VStr "x"), Ast.constant (Value.VInt 2))]) =
      .ok (.VDict [(Value.VStr "x", Value.VInt 2)]) ∧
    Ast.name "x" ≠ Ast.constant (Value.VStr "x") :=
  ⟨rfl, fun h => Ast.noConfusion h⟩

/-- Witness for the amended C5 theorem at the same two-pair mapping. -/
theorem parse_value_dict_order_collision_witness :
    parseValueE (Ast.dict [(Ast.name "x", Ast.constant (Value.VInt 1)),
        (Ast.constant (Value.VStr "x"), Ast.constant (Value.VInt 2))]) =
      .ok (.VDict (dictFold ([(Ast.name "x", Ast.constant (Value.VInt 1)),
        (Ast.constant (Value.VStr "x"), Ast.constant (Value.VInt 2))].map reconPair))) :=
  (parse_value_dict_order_collision _
    (by intro kv hkv
        simp only [List.mem_cons, List.not_mem_nil, or_false] at hkv
        rcases hkv with rfl | rfl <;> rfl)).1

/-! ## Defaults alignment (claims C3 and C9) -/

/-- The entry the defaults loop appends for parameter `p` and default
expression `d`: `{'arg': p.arg, 'value': _safe_parse(d, ...)}`. -/
def mkDefaultEntry (p : Arg) (d : Ast) : DefaultEntry :=
  ⟨p.arg, safeParse d "<default_parse_error>"⟩

/-- Recursive restatement of the defaults loop without the accumulator:
walk the default expressions from position `i`, stopping (and discarding
the rest) at the first failing index lookup. -/
def defaultsSpec (argsL : List Arg) (start : Int) : Nat → List Ast → List DefaultEntry
  | _, [] => []
  | i, d :: rest =>
      match pyListGet argsL (start + i) with
      | .error _ => []
      | .ok a => ⟨a.arg, safeParse d "<default_parse_error>"⟩ :: defaultsSpec argsL start (i + 1) rest

theorem defaultsLoop_eq_spec (argsL : List Arg) (start : Int) :
    ∀ (ds : List Ast) (i : Nat) (acc : List DefaultEntry),
      defaultsLoop argsL start ds i acc = acc ++ defaultsSpec argsL start i ds := by
  intro ds
  induction ds with
  | nil => intro i acc; simp [defaultsLoop, defaultsSpec]
  | cons d rest ih =>
      intro i acc
      rw [defaultsLoop, defaultsSpec]
      cases hp : pyListGet argsL (start + i) with
      | error e => simp
      | ok a => simp [ih]

theorem wrapIdx_nonneg (len : Nat) (x : Int) (h : 0 ≤ x) : wrapIdx len x = x.toNat := by
  unfold wrapIdx
  rw [if_neg (by omega)]

theorem wrapIdx_neg (len : Nat) (x : Int) (h : x < 0) : wrapIdx len x = (x + len).toNat := by
  unfold wrapIdx
  rw [if_pos h]

theorem pyListGet_valid {α : Type} (l : List α) (x : Int) (dflt : α)
    (h1 : -(l.length : Int) ≤ x) (h2 : x < l.length) :
    pyListGet l x = .ok (l.getD (wrapIdx l.length x) dflt) := by
  unfold pyListGet
  rw [if_neg (by omega)]
  have hidx : wrapIdx l.length x < l.length := by
    unfold wrapIdx
    split <;> omega
  have hget : l.get? (wrapIdx l.length x) = some (l.getD (wrapIdx l.length x) dflt) := by
    rw [List.getD_eq_getElem?_getD, List.get?_eq_getElem?, List.getElem?_eq_getElem hidx]
    rfl
  rw [hget]

theorem pyListGet_err {α : Type} (l : List α) (x : Int)
    (h : x < -(l.length : Int)) :
    pyListGet l x = .error (.indexErr "list index out of range") := by
  unfold pyListGet
  rw [if_pos h]

theorem defaultsSpec_nonneg (argsL : List Arg) (start : Int) :
    ∀ (ds : List Ast) (i : Nat), 0 ≤ start + i → start + i + ds.length ≤ argsL.length →
      defaultsSpec argsL start i ds =
        List.zipWith mkDefaultEntry (argsL.drop (start + i).toNat) ds := by
  intro ds
  induction ds with
  | nil => intro i h0 hend; simp [defaultsSpec]
  | cons d rest ih =>
      intro i h0 hend
      simp only [List.length_cons] at hend
      have hlt : start + ↑i < (argsL.length : Int) := by push_cast at hend; omega
      have hidx : (start + ↑i).toNat < argsL.length := by omega
      rw [defaultsSpec]
      cases hp : pyListGet argsL (start + ↑i) with
      | error e =>
          rw [pyListGet_valid argsL (start + ↑i) (⟨"", none⟩ : Arg) (by omega) hlt] at hp
          exact absurd hp (by simp)
      | ok a =>
          rw [pyListGet_valid argsL (start + ↑i) (⟨"", none⟩ : Arg) (by omega) hlt] at hp
          injection hp with ha
          dsimp only
          rw [wrapIdx_nonneg _ _ h0] at ha
          rw [List.drop_eq_getElem_cons hidx, List.zipWith_cons_cons]
          congr 1
          · rw [← ha, List.getD_eq_getElem argsL _ hidx]
            rfl
          · rw [ih (i + 1) (by push_cast; omega) (by push_cast; push_cast at hend; omega),
                show (start + ↑(i + 1)).toNat = (start + ↑i).toNat + 1 from by push_cast; omega]

theorem defaultsSpec_neg (argsL : List Arg) (start : Int) :
    ∀ (ds : List Ast) (i : Nat), -(argsL.length : Int) ≤ start + i →
      start + i + ds.length ≤ 0 →
      defaultsSpec argsL start i ds =
        List.zipWith mkDefaultEntry (argsL.drop (start + i + argsL.length).toNat) ds := by
  intro ds
  induction ds with
  | nil => intro i h0 hend; simp [defaultsSpec]
  | cons d rest ih =>
      intro i h0 hend
      simp only [List.length_cons] at hend
      have hneg : start + ↑i < 0 := by push_cast at hend; omega
      have hlt : start + ↑i < (argsL.length : Int) := by omega
      have hidx : (start + ↑i + argsL.length).toNat < argsL.length := by omega
      rw [defaultsSpec]
      cases hp : pyListGet argsL (start + ↑i) with
      | error e =>
          rw [pyListGet_valid argsL (start + ↑i) (⟨"", none⟩ : Arg) h0 hlt] at hp
          exact absurd hp (by simp)
      | ok a =>
          rw [pyListGet_valid argsL (start + ↑i) (⟨"", none⟩ : Arg) h0 hlt] at hp
          injection hp with ha
          dsimp only
          rw [wrapIdx_neg _ _ hneg] at ha
          rw [List.drop_eq_getElem_cons hidx, List.zipWith_cons_cons]
          congr 1
          · rw [← ha, List.getD_eq_getElem argsL _ hidx]
            rfl
          · rw [ih (i + 1) (by push_cast; omega) (by push_cast; push_cast at hend; omega),
                show (start + ↑(i + 1) + (argsL.length : Int)).toNat =
                  (start + ↑i + (argsL.length : Int)).toNat + 1 from by push_cast; omega]

theorem defaultsSpec_append (argsL : List Arg) (start : Int) :
    ∀ (ds1 ds2 : List Ast) (i : Nat),
      (∀ j : Nat, j < ds1.length →
        -(argsL.length : Int) ≤ start + ↑i + ↑j ∧ start + ↑i + ↑j < argsL.length) →
      defaultsSpec argsL start i (ds1 ++ ds2) =
        defaultsSpec argsL start i ds1 ++ defaultsSpec argsL start (i + ds1.length) ds2 := by
  intro ds1
  induction ds1 with
  | nil => intro ds2 i h; simp [defaultsSpec]
  | cons d rest ih =>
      intro ds2 i h
      have h0 := h 0 (by simp)
      push_cast at h0
      rw [List.cons_append, defaultsSpec, defaultsSpec]
      cases hp : pyListGet argsL (start + ↑i) with
      | error e =>
          rw [pyListGet_valid argsL (start + ↑i) (⟨"", none⟩ : Arg) (by omega) (by omega)] at hp
          exact absurd hp (by simp)
      | ok a =>
          rw [List.cons_append]
          rw [ih ds2 (i + 1) (fun j hj => by
            have := h (j + 1) (by simpa using Nat.succ_lt_succ hj)
            push_cast at this ⊢
            omega)]
          simp only [List.length_cons]
          rw [show i + 1 + rest.length = i + (rest.length + 1) from by omega]

theorem defaultsSpec_wrap (argsL : List Arg) (ds : List Ast)
    (h1 : argsL.length < ds.length) (h2 : ds.length ≤ 2 * argsL.length) :
    defaultsSpec argsL ((argsL.length : Int) - ds.length) 0 ds =
      List.zipWith mkDefaultEntry
        (argsL.drop (2 * argsL.length - ds.length) ++ argsL) ds := by
  have hsplit := List.take_append_drop (ds.length - argsL.length) ds
  have hlen1 : (argsL.drop (2 * argsL.length - ds.length)).length =
      (ds.take (ds.length - argsL.length)).length := by
    rw [List.length_drop, List.length_take]
    omega
  have htl : (ds.take (ds.length - argsL.length)).length = ds.length - argsL.length := by
    rw [List.length_take]
    omega
  calc defaultsSpec argsL ((argsL.length : Int) - ds.length) 0 ds
      = defaultsSpec argsL ((argsL.length : Int) - ds.length) 0
          (ds.take (ds.length - argsL.length) ++ ds.drop (ds.length - argsL.length)) := by
        rw [hsplit]
    _ = defaultsSpec argsL ((argsL.length : Int) - ds.length) 0
          (ds.take (ds.length - argsL.length)) ++
        defaultsSpec argsL ((argsL.length : Int) - ds.length)
          (0 + (ds.take (ds.length - argsL.length)).length)
          (ds.drop (ds.length - argsL.length)) := by
        refine defaultsSpec_append argsL _ _ _ 0 (fun j hj => ?_)
        rw [htl] at hj
        push_cast
        omega
    _ = List.zipWith mkDefaultEntry (argsL.drop (2 * argsL.length - ds.length))
          (ds.take (ds.length - argsL.length)) ++
        List.zipWith mkDefaultEntry argsL (ds.drop (ds.length - argsL.length)) := by
        congr 1
        · rw [defaultsSpec_neg argsL _ _ 0 (by push_cast; omega)
              (by rw [htl]; push_cast; omega)]
          rw [show ((argsL.length : Int) - ↑ds.length + ↑(0 : ℕ) +
              ↑argsL.length).toNat = 2 * argsL.length - ds.length from by
            push_cast; omega]
        · rw [defaultsSpec_nonneg argsL _ _ _
              (by rw [htl]; push_cast; omega)
              (by rw [htl]; simp only [List.length_drop]; push_cast; omega)]
          rw [show ((argsL.length : Int) - ↑ds.length +
              ↑(0 + (ds.take (ds.length - argsL.length)).length)).toNat = 0 from by
            rw [htl]; push_cast; omega]
          rw [List.drop_zero]
    _ = List.zipWith mkDefaultEntry
          (argsL.drop (2 * argsL.length - ds.length) ++ argsL)
          (ds.take (ds.length - argsL.length) ++ ds.drop (ds.length - argsL.length)) :=
        (List.zipWith_append _ _ _ _ _ hlen1).symm
    _ = List.zipWith mkDefaultEntry
          (argsL.drop (2 * argsL.length - ds.length) ++ argsL) ds := by
        rw [hsplit]

/-- C3: for a method whose positional parameters are all plain (`n = `
count of `args.args`, no positional-only parameters) with `k <= n` default
expressions, the extracted defaults list is exactly the `zipWith` of the
trailing `k` positional parameters with the default expressions: `k`
entries, in order, entry `i` pairing the reconstructed default `i` with
the parameter at index `n-k+i`. -/
theorem extract_arguments_defaults_align (a : Arguments)
    (hpos : a.posonlyargs = []) (hk : a.defaults.length ≤ a.args.length) :
    (extractArguments a).defaults =
      List.zipWith mkDefaultEntry
        (a.args.drop (a.args.length - a.defaults.length)) a.defaults ∧
    (extractArguments a).defaults.length = a.defaults.length := by
  have hmain : (extractArguments a).defaults =
      List.zipWith mkDefaultEntry
        (a.args.drop (a.args.length - a.defaults.length)) a.defaults := by
    show defaultsLoop a.args ((a.args.length : Int) - a.defaults.length)
        a.defaults 0 [] = _
    rw [defaultsLoop_eq_spec, List.nil_append]
    rw [defaultsSpec_nonneg a.args _ a.defaults 0 (by push_cast; omega)
      (by push_cast; omega)]
    rw [show ((a.args.length : Int) - ↑a.defaults.length + ↑(0 : ℕ)).toNat =
        a.args.length - a.defaults.length from by push_cast; omega]
  refine ⟨hmain, ?_⟩
  rw [hmain, List.length_zipWith, List.length_drop]
  omega

/-- Witness for the defaults-alignment theorem: `(a, b, c)` with defaults
`(2, 3)` pairs `2` with `b` and `3` with `c`. -/
theorem extract_arguments_defaults_align_witness :
    (extractArguments ⟨[], [⟨"a", none⟩, ⟨"b", none⟩, ⟨"c", none⟩],
        [Ast.constant (Value.VInt 2), Ast.constant (Value.VInt 3)],
        [], [], none, none⟩).defaults =
      List.zipWith mkDefaultEntry
        (([⟨"a", none⟩, ⟨"b", none⟩, ⟨"c", none⟩] : List Arg).drop 1)
        [Ast.constant (Value.VInt 2), Ast.constant (Value.VInt 3)] ∧
    (extractArguments ⟨[], [⟨"a", none⟩, ⟨"b", none⟩, ⟨"c", none⟩],
        [Ast.constant (Value.VInt 2), Ast.constant (Value.VInt 3)],
        [], [], none, none⟩).defaults.length = 2 :=
  extract_arguments_defaults_align _ rfl (by decide)

/-- C9 (amended): positional-only parameters are entirely absent from the
extracted bundle (the `args` entries come from `args.args` alone, and the
whole bundle ignores `posonlyargs`); default alignment counts only the
non-positional-only parameters `n = |args.args|`.  When the defaults count
`k` exceeds `n` but is at most `2n`, the Python negative indexing in
`args.args[defaults_start + i]` wraps around and the defaults pair with
the wrapped-around parameter names; when `k > 2n` the very first lookup
raises `IndexError`, the surrounding handler swallows it, and the
extracted defaults list is empty. -/
theorem extract_arguments_posonly_wraparound (a : Arguments) :
    (extractArguments a).args =
      a.args.map (fun p => (⟨p.arg, renderAnnotation p.annotation⟩ : ArgInfo)) ∧
    extractArguments a = extractArguments { a with posonlyargs := [] } ∧
    (a.args.length < a.defaults.length → a.defaults.length ≤ 2 * a.args.length →
      (extractArguments a).defaults =
        List.zipWith mkDefaultEntry
          (a.args.drop (2 * a.args.length - a.defaults.length) ++ a.args)
          a.defaults) ∧
    (2 * a.args.length < a.defaults.length → (extractArguments a).defaults = []) := by
  refine ⟨rfl, rfl, ?_, ?_⟩
  · intro h1 h2
    show defaultsLoop a.args ((a.args.length : Int) - a.defaults.length)
        a.defaults 0 [] = _
    rw [defaultsLoop_eq_spec, List.nil_append]
    exact defaultsSpec_wrap a.args a.defaults h1 h2
  · intro h
    show defaultsLoop a.args ((a.args.length : Int) - a.defaults.length)
        a.defaults 0 [] = _
    rw [defaultsLoop_eq_spec, List.nil_append]
    cases hd : a.defaults with
    | nil => rfl
    | cons d rest =>
        rw [defaultsSpec]
        rw [pyListGet_err a.args _ (by rw [hd] at h; simp only [List.length_cons] at h ⊢; push_cast; omega)]

/-- C9 counterexample: with three positional-only parameters, one plain
parameter and four defaults, the claim's "wrapped-around pairing" does not
happen — the first lookup `args.args[-3]` on the one-element list raises
`IndexError` and the extracted defaults list is empty. -/
theorem extract_arguments_wraparound_counterexample :
    (extractArguments ⟨[⟨"p1", none⟩, ⟨"p2", none⟩, ⟨"p3", none⟩], [⟨"d", none⟩],
        [Ast.constant (Value.VInt 1), Ast.constant (Value.VInt 2),
         Ast.constant (Value.VInt 3), Ast.constant (Value.VInt 4)],
        [], [], none, none⟩).defaults = [] ∧
    ([⟨"d", none⟩] : List Arg).length = 1 ∧
    ([Ast.constant (Value.VInt 1), Ast.constant (Value.VInt 2),
      Ast.constant (Value.VInt 3), Ast.constant (Value.VInt 4)]).length = 4 :=
  ⟨rfl, rfl, rfl⟩

/-- Witness for the amended C9 theorem in the wraparound regime: two plain
parameters `x, y` and three defaults pair the first default with `y`
(negative index `-1`), then `x`, then `y`. -/
theorem extract_arguments_posonly_wraparound_witness :
    (extractArguments ⟨[⟨"p", none⟩], [⟨"x", none⟩, ⟨"y", none⟩],
        [Ast.constant (Value.VInt 1), Ast.constant (Value.VInt 2),
         Ast.constant (Value.VInt 3)],
        [], [], none, none⟩).defaults =
      List.zipWith mkDefaultEntry
        (([⟨"x", none⟩, ⟨"y", none⟩] : List Arg).drop (2 * 2 - 3) ++
          [⟨"x", none⟩, ⟨"y", none⟩])
        [Ast.constant (Value.VInt 1), Ast.constant (Value.VInt 2),
         Ast.constant (Value.VInt 3)] :=
  (extract_arguments_posonly_wraparound _).2.2.1 (by decide) (by decide)

/-! ## Class extraction: totality and error accumulation (claim C2) -/

/-- Assignment targets that are plain names (the only ones the parser
stores). -/
def isNameTarget : Ast → Bool
  | .name _ => true
  | _ => false

/-- The exception (if any) that `_process_class_item` lets escape for a
given item: only `parse_value` on the value of a plain or annotated
assignment with a name target can raise out of the item. -/
def stmtRaises : Stmt → Option PyErr
  | .assign targets value =>
      if targets.any isNameTarget then
        match parseValueE value with
        | .ok _ => none
        | .error e => some e
      else none
  | .annAssign target _ value =>
      match value, target with
      | some v, .name _ =>
          (match parseValueE v with
           | .ok _ => none
           | .error e => some e)
      | _, _ => none
  | _ => none

theorem processAssignTargets_error (targets : List Ast) (value : Ast) (e : PyErr)
    (hany : targets.any isNameTarget = true) (hval : parseValueE value = .error e) :
    ∀ info, processAssignTargets targets value info = .error e := by
  induction targets with
  | nil => simp at hany
  | cons t rest ih =>
      intro info
      cases t with
      | name id =>
          have h1 : processAssignTargets (Ast.name id :: rest) value info =
              (parseValueE value).bind (fun parsed =>
                processAssignTargets rest value
                  { info with attributes := attrInsert info.attributes id (.raw parsed) }) := rfl
          rw [h1, hval]
          rfl
      | constant v => exact ih (by simpa [isNameTarget] using hany) info
      | dict ps => exact ih (by simpa [isNameTarget] using hany) info
      | list es => exact ih (by simpa [isNameTarget] using hany) info
      | tuple es => exact ih (by simpa [isNameTarget] using hany) info
      | set es => exact ih (by simpa [isNameTarget] using hany) info
      | strNode s => exact ih (by simpa [isNameTarget] using hany) info
      | numNode n => exact ih (by simpa [isNameTarget] using hany) info
      | bytesNode bs => exact ih (by simpa [isNameTarget] using hany) info
      | other u => exact ih (by simpa [isNameTarget] using hany) info

theorem stmtRaises_spec (item : Stmt) (e : PyErr) (h : stmtRaises item = some e) :
    ∀ (cn : String) (info : ClassRecord), processItemE cn item info = .error e := by
  intro cn info
  cases item with
  | assign targets value =>
      have h' : (if targets.any isNameTarget then
          match parseValueE value with
          | .ok _ => none
          | .error e0 => some e0
        else none) = some e := h
      by_cases hany : targets.any isNameTarget = true
      · rw [if_pos hany] at h'
        cases hval : parseValueE value with
        | ok w => rw [hval] at h'; exact absurd h' (by simp)
        | error e' =>
            rw [hval] at h'
            injection h' with he
            subst he
            exact processAssignTargets_error targets value e' hany hval info
      · rw [if_neg hany] at h'
        exact absurd h' (by simp)
  | annAssign target ann value =>
      cases value with
      | none => exact absurd (show (none : Option PyErr) = some e from h) (by simp)
      | some v =>
          cases target with
          | name id =>
              have h' : (match parseValueE v with
                  | .ok _ => none
                  | .error e0 => some e0) = some e := h
              cases hval : parseValueE v with
              | ok w => rw [hval] at h'; exact absurd h' (by simp)
              | error e' =>
                  rw [hval] at h'
                  injection h' with he
                  subst he
                  have g : processItemE cn (Stmt.annAssign (Ast.name id) ann (some v)) info =
                      (parseValueE v).bind (fun attrValue =>
                        match unparseAst ann with
                        | .ok s => .ok { info with
                            attributes := attrInsert info.attributes id (.annotated attrValue s) }
                        | .error e2 => .ok { info with
                            attributes :=
                              attrInsert info.attributes id (.annotated attrValue "<annotation_error>"),
                            parsing_errors := info.parsing_errors ++
                              ["Annotation error in attribute " ++ id ++ ": " ++ e2.msg] }) := rfl
                  rw [g, hval]
                  rfl
          | constant c => exact absurd (show (none : Option PyErr) = some e from h) (by simp)
          | dict ps => exact absurd (show (none : Option PyErr) = some e from h) (by simp)
          | list es => exact absurd (show (none : Option PyErr) = some e from h) (by simp)
          | tuple es => exact absurd (show (none : Option PyErr) = some e from h) (by simp)
          | set es => exact absurd (show (none : Option PyErr) = some e from h) (by simp)
          | strNode s => exact absurd (show (none : Option PyErr) = some e from h) (by simp)
          | numNode n => exact absurd (show (none : Option PyErr) = some e from h) (by simp)
          | bytesNode bs => exact absurd (show (none : Option PyErr) = some e from h) (by simp)
          | other u => exact absurd (show (none : Option PyErr) = some e from h) (by simp)
  | funcDef mname a decs rets body => exact absurd h (by simp [stmtRaises])
  | exprStmt ex => exact absurd h (by simp [stmtRaises])
  | otherStmt => exact absurd h (by simp [stmtRaises])

theorem processAssignTargets_ok_shape (value : Ast) :
    ∀ (targets : List Ast) (info info' : ClassRecord),
      processAssignTargets targets value info = .ok info' →
      info'.parsing_errors = info.parsing_errors ∧ info'.name = info.name := by
  intro targets
  induction targets with
  | nil =>
      intro info info' h
      injection h with h
      subst h
      exact ⟨rfl, rfl⟩
  | cons t rest ih =>
      intro info info' h
      cases t with
      | name id =>
          have h1 : processAssignTargets (Ast.name id :: rest) value info =
              (parseValueE value).bind (fun parsed =>
                processAssignTargets rest value
                  { info with attributes := attrInsert info.attributes id (.raw parsed) }) := rfl
          rw [h1] at h
          cases hval : parseValueE value with
          | error e => rw [hval] at h; exact absurd h (by simp [Except.bind])
          | ok w =>
              rw [hval] at h
              have h2 : processAssignTargets rest value
                  { info with attributes := attrInsert info.attributes id (.raw w) } =
                    .ok info' := h
              obtain ⟨he, hn⟩ := ih _ _ h2
              exact ⟨by rw [he], by rw [hn]⟩
      | constant v => exact ih _ _ h
      | dict ps => exact ih _ _ h
      | list es => exact ih _ _ h
      | tuple es => exact ih _ _ h
      | set es => exact ih _ _ h
      | strNode s => exact ih _ _ h
      | numNode n => exact ih _ _ h
      | bytesNode bs => exact ih _ _ h
      | other u => exact ih _ _ h

theorem processItemE_ok_shape (cn : String) (item : Stmt) (info info' : ClassRecord)
    (h : processItemE cn item info = .ok info') :
    (∃ tail, info'.parsing_errors = info.parsing_errors ++ tail) ∧
      info'.name = info.name := by
  cases item with
  | assign targets value =>
      obtain ⟨he, hn⟩ := processAssignTargets_ok_shape value targets info info' h
      exact ⟨⟨[], by simp [he]⟩, hn⟩
  | annAssign target ann value =>
      cases value with
      | none =>
          injection h with h
          subst h
          exact ⟨⟨[], by simp⟩, rfl⟩
      | some v =>
          cases target with
          | name id =>
              have g : processItemE cn (Stmt.annAssign (Ast.name id) ann (some v)) info =
                  (parseValueE v).bind (fun attrValue =>
                    match unparseAst ann with
                    | .ok s => .ok { info with
                        attributes := attrInsert info.attributes id (.annotated attrValue s) }
                    | .error e2 => .ok { info with
                        attributes :=
                          attrInsert info.attributes id (.annotated attrValue "<annotation_error>"),
                        parsing_errors := info.parsing_errors ++
                          ["Annotation error in attribute " ++ id ++ ": " ++ e2.msg] }) := rfl
              rw [g] at h
              cases hval : parseValueE v with
              | error e => rw [hval] at h; exact absurd h (by simp [Except.bind])
              | ok w =>
                  rw [hval] at h
                  cases hann : unparseAst ann with
                  | ok s =>
                      rw [hann] at h
                      injection h with h
                      subst h
                      exact ⟨⟨[], by simp⟩, rfl⟩
                  | error e2 =>
                      rw [hann] at h
                      injection h with h
                      subst h
                      exact ⟨⟨_, rfl⟩, rfl⟩
          | constant c => injection h with h; subst h; exact ⟨⟨[], by simp⟩, rfl⟩
          | dict ps => injection h with h; subst h; exact ⟨⟨[], by simp⟩, rfl⟩
          | list es => injection h with h; subst h; exact ⟨⟨[], by simp⟩, rfl⟩
          | tuple es => injection h with h; subst h; exact ⟨⟨[], by simp⟩, rfl⟩
          | set es => injection h with h; subst h; exact ⟨⟨[], by simp⟩, rfl⟩
          | strNode s => injection h with h; subst h; exact ⟨⟨[], by simp⟩, rfl⟩
          | numNode n => injection h with h; subst h; exact ⟨⟨[], by simp⟩, rfl⟩
          | bytesNode bs => injection h with h; subst h; exact ⟨⟨[], by simp⟩, rfl⟩
          | other u => injection h with h; subst h; exact ⟨⟨[], by simp⟩, rfl⟩
  | funcDef mname a decs rets body =>
      cases rets with
      | none =>
          injection h with h
          subst h
          exact ⟨⟨[], by simp⟩, rfl⟩
      | some r =>
          have g : processItemE cn (Stmt.funcDef mname a decs (some r) body) info =
              (match unparseAst r with
               | .ok s => .ok { info with methods := info.methods ++
                   [{ name := mname, decorators := decs.map unparseWithFallback,
                      docstring := getDocstring body, args := extractArguments a,
                      return_type := some s }] }
               | .error e => .ok { info with
                   methods := info.methods ++
                     [{ name := mname, decorators := decs.map unparseWithFallback,
                        docstring := getDocstring body, args := extractArguments a,
                        return_type := some "<return_type_error>" }],
                   parsing_errors := info.parsing_errors ++
                     ["Return type error in method " ++ mname ++ ": " ++ e.msg] }) := rfl
          rw [g] at h
          cases hr : unparseAst r with
          | ok s =>
              rw [hr] at h
              injection h with h
              subst h
              exact ⟨⟨[], by simp⟩, rfl⟩
          | error e2 =>
              rw [hr] at h
              injection h with h
              subst h
              exact ⟨⟨_, rfl⟩, rfl⟩
  | exprStmt ex =>
      injection h with h
      subst h
      exact ⟨⟨[], by simp⟩, rfl⟩
  | otherStmt =>
      injection h with h
      subst h
      exact ⟨⟨[], by simp⟩, rfl⟩

theorem processItemCaught_shape (cn : String) (info : ClassRecord) (item : Stmt) :
    (∃ tail, (processItemCaught cn info item).parsing_errors =
      info.parsing_errors ++ tail) ∧
    (processItemCaught cn info item).name = info.name := by
  rw [processItemCaught]
  cases hp : processItemE cn item info with
  | ok info' => exact processItemE_ok_shape cn item info info' hp
  | error e => exact ⟨⟨_, rfl⟩, rfl⟩

theorem foldl_items_shape (cn : String) :
    ∀ (l : List Stmt) (info : ClassRecord),
      (∀ m, m ∈ info.parsing_errors →
        m ∈ (l.foldl (processItemCaught cn) info).parsing_errors) ∧
      (l.foldl (processItemCaught cn) info).name = info.name := by
  intro l
  induction l with
  | nil => intro info; exact ⟨fun m hm => hm, rfl⟩
  | cons item rest ih =>
      intro info
      rw [List.foldl_cons]
      obtain ⟨⟨tail, htail⟩, hname⟩ := processItemCaught_shape cn info item
      obtain ⟨ihmem, ihname⟩ := ih (processItemCaught cn info item)
      refine ⟨fun m hm => ihmem m ?_, by rw [ihname, hname]⟩
      rw [htail]
      exact List.mem_append_left _ hm

theorem foldl_items_error_mem (cn : String) :
    ∀ (l : List Stmt) (info : ClassRecord) (item : Stmt) (e : PyErr),
      item ∈ l → stmtRaises item = some e →
      ("Error processing item in class " ++ cn ++ ": " ++ e.msg) ∈
        (l.foldl (processItemCaught cn) info).parsing_errors := by
  intro l
  induction l with
  | nil => intro info item e hmem; exact absurd hmem (by simp)
  | cons i0 rest ih =>
      intro info item e hmem hraise
      rw [List.foldl_cons]
      rcases List.mem_cons.mp hmem with heq | hmem'
      · subst heq
        have hcaught : (processItemCaught cn info item).parsing_errors =
            info.parsing_errors ++
              ["Error processing item in class " ++ cn ++ ": " ++ e.msg] := by
          rw [processItemCaught, stmtRaises_spec item e hraise cn info]
        refine (foldl_items_shape cn rest _).1 _ ?_
        rw [hcaught]
        simp
      · exact ih _ item e hmem' hraise

theorem processBases_shape (cn : String) :
    ∀ (bases : List Ast) (info : ClassRecord),
      (processBases cn bases info).name = info.name := by
  intro bases
  induction bases with
  | nil => intro info; rfl
  | cons b rest ih =>
      intro info
      rw [processBases, List.foldl_cons]
      cases hb : unparseAst b with
      | ok s =>
          have : (processBases cn rest { info with bases := info.bases ++ [s] }).name =
              info.name := ih _
          rw [processBases] at this
          simpa [hb] using this
      | error e =>
          have : (processBases cn rest { info with parsing_errors := info.parsing_errors ++
              ["Error parsing base class in " ++ cn ++ ": " ++ e.msg] }).name =
              info.name := ih _
          rw [processBases] at this
          simpa [hb] using this

/-- C2 (amended): `extract_class_info` always returns a `ClassRecord` for
the class (it never raises: every item-level exception is caught), and
whenever processing an item lets an exception escape (`stmtRaises`), the
contextual error string is appended to the record's `parsing_errors`.
However, the field a failing plain/annotated assignment was computing is
omitted from `attributes` rather than set to a sentinel; sentinel
placeholders are used only for sub-fields inside method records and
base/annotation renderings. -/
theorem extract_class_info_total_accumulates (node : ClassDef) :
    (extract_class_info node).name = node.name ∧
    ∀ item ∈ node.body, ∀ e : PyErr, stmtRaises item = some e →
      ("Error processing item in class " ++ node.name ++ ": " ++ e.msg) ∈
        (extract_class_info node).parsing_errors := by
  constructor
  · show (node.body.foldl (processItemCaught node.name) _).name = node.name
    rw [(foldl_items_shape node.name node.body _).2]
    show (processBases node.name node.bases (initClassRecord node)).name = node.name
    rw [processBases_shape]
    rfl
  · intro item hmem e hraise
    exact foldl_items_error_mem node.name node.body _ item e hmem hraise

/-- The class body the C2 counterexample uses: `class C: x = {[]: 1}` —
one plain assignment whose value reconstruction raises `TypeError`. -/
def c2Node : ClassDef :=
  ⟨"C", [], [], [.assign [.name "x"] (.dict [(.list [], .constant (.VInt 1))])]⟩

/-- C2 counterexample: the claim requires that on a sub-step failure "the
corresponding field is set to a sentinel placeholder value rather than
being omitted"; here the only item fails, an error string is appended, and
the attribute `x` is omitted entirely (`attributes` stays empty) instead
of being set to any sentinel. -/
theorem extract_class_info_omits_failed_attribute :
    (extract_class_info c2Node).parsing_errors =
      ["Error processing item in class C: unhashable type"] ∧
    (extract_class_info c2Node).attributes = [] :=
  ⟨rfl, rfl⟩

/-- Witness for the amended C2 theorem at the failing-assignment class. -/
theorem extract_class_info_total_accumulates_witness :
    ("Error processing item in class C: unhashable type") ∈
      (extract_class_info c2Node).parsing_errors :=
  (extract_class_info_total_accumulates c2Node).2
    (Stmt.assign [Ast.name "x"] (Ast.dict [(Ast.list [], Ast.constant (Value.VInt 1))]))
    (by simp [c2Node]) (PyErr.typeErr "unhashable type") rfl

/-! ## File walking and folder scanning (claims C6, C7, C8, C10) -/

theorem listContainsSub_of_pref (hay needle : List Char)
    (h : needle.isPrefixOf hay = true) : listContainsSub hay needle = true := by
  cases hay with
  | nil =>
      cases needle with
      | nil => rfl
      | cons c t => simp [List.isPrefixOf] at h
  | cons c t => simp [listContainsSub, h]

theorem isPrefixOf_append_right (l1 l2 r : List Char)
    (h : l1.isPrefixOf l2 = true) : l1.isPrefixOf (l2 ++ r) = true := by
  rw [List.isPrefixOf_iff_prefix] at h ⊢
  exact h.trans (List.prefix_append l2 r)

theorem strContains_of_pref_append (lit rest ndl : String)
    (h : ndl.toList.isPrefixOf lit.toList = true) :
    strContains (lit ++ rest) ndl = true := by
  unfold strContains
  have hd : (lit ++ rest).toList = lit.toList ++ rest.toList := String.data_append lit rest
  rw [hd]
  exact listContainsSub_of_pref _ _ (isPrefixOf_append_right _ _ _ h)

theorem synErrMsg_contains (p1 m : String) :
    strContains ("Syntax error in file " ++ p1 ++ ": " ++ m) "Syntax error" = true := by
  rw [String.append_assoc, String.append_assoc]
  exact strContains_of_pref_append _ _ _ (by decide)

theorem walkClasses_spec (p : String) :
    ∀ (nodes : List ClassDef) (res : FileResults),
      walkClasses p nodes res =
        ⟨res.classes ++
          (nodes.filter (fun n => hasNodeBase (extract_class_info n))).map
            (fun n => withFile p (extract_class_info n)),
         res.errors⟩ := by
  intro nodes
  induction nodes with
  | nil => intro res; simp [walkClasses]
  | cons n rest ih =>
      intro res
      rw [walkClasses]
      cases hf : hasNodeBase (extract_class_info n) with
      | true => rw [if_pos rfl, ih]; simp [List.filter_cons, hf]
      | false => rw [if_neg (by simp [hf]), ih]; simp [List.filter_cons, hf]

theorem scanFiles_fields :
    ∀ (fs : List PyFile) (acc : ScanResult),
      (scanFiles fs acc).files = acc.files ++
        ((fs.filter (fun f => !(parse_file f).classes.isEmpty)).map (fun f => f.path)) ∧
      (scanFiles fs acc).classes = acc.classes ++
        (fs.map (fun f => (parse_file f).classes)).flatten ∧
      (scanFiles fs acc).errors = acc.errors ++
        (fs.map (fun f => (parse_file f).errors.filter
          (fun e => !strContains e.msg "Syntax error"))).flatten ∧
      (scanFiles fs acc).scanned_folders = acc.scanned_folders := by
  intro fs
  induction fs with
  | nil => intro acc; simp [scanFiles]
  | cons f rest ih =>
      intro acc
      rw [scanFiles]
      cases hE : (parse_file f).classes.isEmpty with
      | true =>
          rw [if_pos rfl]
          obtain ⟨h1, h2, h3, h4⟩ := ih _
          rw [List.isEmpty_iff] at hE
          refine ⟨?_, ?_, ?_, ?_⟩
          · rw [h1]; simp [List.filter_cons, hE]
          · rw [h2]; simp [hE]
          · rw [h3]; simp
          · rw [h4]
      | false =>
          rw [if_neg (by simp)]
          obtain ⟨h1, h2, h3, h4⟩ := ih _
          refine ⟨?_, ?_, ?_, ?_⟩
          · rw [h1]; simp [List.filter_cons, hE]
          · rw [h2]; simp
          · rw [h3]; simp
          · rw [h4]

/-- The `*.py` files a root contributes to the scan (none when the root
does not exist). -/
def rootFiles (r : Root) : List PyFile := r.files.getD []

/-- The error entries a root contributes to the aggregate: one folder
error for a missing root, otherwise the per-file error entries with
syntax-error-kind messages suppressed. -/
def rootErrors (r : Root) : List ErrEntry :=
  match r.files with
  | none => [.folderErr r.path ("Folder does not exist: " ++ r.path)]
  | some fs => (fs.map (fun f => (parse_file f).errors.filter
      (fun e => !strContains e.msg "Syntax error"))).flatten

theorem scanRoots_fields :
    ∀ (roots : List Root) (acc : ScanResult),
      (scanRoots roots acc).files = acc.files ++
        (roots.map (fun r => ((rootFiles r).filter
          (fun f => !(parse_file f).classes.isEmpty)).map (fun f => f.path))).flatten ∧
      (scanRoots roots acc).classes = acc.classes ++
        (roots.map (fun r => ((rootFiles r).map
          (fun f => (parse_file f).classes)).flatten)).flatten ∧
      (scanRoots roots acc).errors = acc.errors ++ (roots.map rootErrors).flatten ∧
      (scanRoots roots acc).scanned_folders = acc.scanned_folders := by
  intro roots
  induction roots with
  | nil => intro acc; simp [scanRoots]
  | cons r rest ih =>
      intro acc
      rw [scanRoots]
      cases hr : r.files with
      | none =>
          obtain ⟨h1, h2, h3, h4⟩ := ih _
          refine ⟨?_, ?_, ?_, ?_⟩
          · rw [h1]; simp [rootFiles, hr]
          · rw [h2]; simp [rootFiles, hr]
          · rw [h3]; simp [rootErrors, hr]
          · rw [h4]
      | some fs =>
          obtain ⟨h1, h2, h3, h4⟩ := ih _
          obtain ⟨g1, g2, g3, g4⟩ := scanFiles_fields fs acc
          refine ⟨?_, ?_, ?_, ?_⟩
          · rw [h1, g1]; simp [rootFiles, hr]
          · rw [h2, g2]; simp [rootFiles, hr]
          · rw [h3, g3]; simp [rootErrors, hr]
          · rw [h4, g4]

theorem flatten_filter_map_comm (roots : List Root) :
    (roots.map (fun r => ((rootFiles r).filter
      (fun f => !(parse_file f).classes.isEmpty)).map (fun f => f.path))).flatten =
    (((roots.map rootFiles).flatten).filter
      (fun f => !(parse_file f).classes.isEmpty)).map (fun f => f.path) := by
  induction roots with
  | nil => rfl
  | cons r rest ih => simp [List.filter_append, ih]

theorem scan_folders_fields (roots : List Root) :
    (scan_folders roots).files = (roots.map (fun r => ((rootFiles r).filter
      (fun f => !(parse_file f).classes.isEmpty)).map (fun f => f.path))).flatten ∧
    (scan_folders roots).classes = (roots.map (fun r => ((rootFiles r).map
      (fun f => (parse_file f).classes)).flatten)).flatten ∧
    (scan_folders roots).errors = (roots.map rootErrors).flatten := by
  obtain ⟨h1, h2, h3, _⟩ :=
    scanRoots_fields roots ⟨roots.map (fun r => r.path), [], [], []⟩
  have hu : scan_folders roots =
      scanRoots roots ⟨roots.map (fun r => r.path), [], [], []⟩ := rfl
  refine ⟨?_, ?_, ?_⟩
  · rw [hu, h1]; rfl
  · rw [hu, h2]; rfl
  · rw [hu, h3]; rfl

/-- C8: a file's path is in the `files` list of a scan exactly when its
per-file parse yielded at least one retained class: across all roots in
order, `files` is the path list of the processed files filtered by
"classes nonempty" — a successfully parsed file contributing zero
matching classes never appears. -/
theorem scan_folders_files_exactly_nonempty (roots : List Root) :
    (scan_folders roots).files =
      (((roots.map rootFiles).flatten).filter
        (fun f => !(parse_file f).classes.isEmpty)).map (fun f => f.path) := by
  rw [(scan_folders_fields roots).1, flatten_filter_map_comm]

/-- C7: scanning a root holding one syntactically invalid file and one
valid file: the invalid file's per-file scan yields zero classes and one
syntax-error entry; the aggregate contains only the valid file's classes,
the syntax-error entry is suppressed from the aggregated errors, and the
valid file is still scanned (its path listed exactly when it contributed
classes). -/
theorem scan_skips_syntax_error_file (root p1 m p2 : String) (nodes : List ClassDef) :
    (parse_file ⟨p1, .synErr m⟩).classes = [] ∧
    (parse_file ⟨p1, .synErr m⟩).errors =
      [.fileErr p1 ("Syntax error in file " ++ p1 ++ ": " ++ m)] ∧
    (scan_folders [⟨root, some [⟨p1, .synErr m⟩, ⟨p2, .parsed nodes⟩]⟩]).classes =
      (parse_file ⟨p2, .parsed nodes⟩).classes ∧
    (scan_folders [⟨root, some [⟨p1, .synErr m⟩, ⟨p2, .parsed nodes⟩]⟩]).errors = [] ∧
    (scan_folders [⟨root, some [⟨p1, .synErr m⟩, ⟨p2, .parsed nodes⟩]⟩]).files =
      (if (parse_file ⟨p2, .parsed nodes⟩).classes.isEmpty then [] else [p2]) := by
  obtain ⟨h1, h2, h3⟩ :=
    scan_folders_fields [⟨root, some [⟨p1, .synErr m⟩, ⟨p2, .parsed nodes⟩]⟩]
  have hgoodErr : (parse_file ⟨p2, .parsed nodes⟩).errors = [] :=
    congrArg FileResults.errors (walkClasses_spec p2 nodes ⟨[], []⟩)
  refine ⟨rfl, rfl, ?_, ?_, ?_⟩
  · rw [h2]
    simp [rootFiles, parse_file]
  · rw [h3]
    simp [rootErrors, rootFiles, hgoodErr]
    intro e he
    simp [parse_file] at he
    rw [he]
    show (strContains ("Syntax error in file " ++ p1 ++ ": " ++ m) "Syntax error") = true
    exact synErrMsg_contains p1 m
  · rw [h1]
    simp only [List.map_cons, List.map_nil, List.flatten_cons, List.flatten_nil,
      List.append_nil]
    have hroot : rootFiles ⟨root, some [⟨p1, FileContent.synErr m⟩,
        ⟨p2, FileContent.parsed nodes⟩]⟩ =
        [⟨p1, FileContent.synErr m⟩, ⟨p2, FileContent.parsed nodes⟩] := rfl
    rw [hroot, List.filter_cons, List.filter_cons, List.filter_nil]
    have hbad : (!(parse_file (⟨p1, FileContent.synErr m⟩ : PyFile)).classes.isEmpty) =
        false := rfl
    rw [hbad]
    cases hE : (parse_file ⟨p2, .parsed nodes⟩).classes.isEmpty with
    | true => simp [hE]
    | false => simp [hE]

theorem processBases_fields (cn : String) :
    ∀ (bases : List Ast) (info : ClassRecord),
      (processBases cn bases info).methods = info.methods ∧
      (processBases cn bases info).attributes = info.attributes := by
  intro bases
  induction bases with
  | nil => intro info; exact ⟨rfl, rfl⟩
  | cons b rest ih =>
      intro info
      rw [processBases, List.foldl_cons]
      cases hb : unparseAst b with
      | ok s =>
          obtain ⟨h1, h2⟩ := ih { info with bases := info.bases ++ [s] }
          rw [processBases] at h1 h2
          constructor
          · simpa [hb] using h1
          · simpa [hb] using h2
      | error e =>
          obtain ⟨h1, h2⟩ := ih { info with parsing_errors := info.parsing_errors ++
              ["Error parsing base class in " ++ cn ++ ": " ++ e.msg] }
          rw [processBases] at h1 h2
          constructor
          · simpa [hb] using h1
          · simpa [hb] using h2

theorem extract_empty_body (node : ClassDef) (hb : node.body = []) :
    (extract_class_info node).methods = [] ∧
    (extract_class_info node).attributes = [] := by
  have hm : extract_class_info node =
      { processBases node.name node.bases (initClassRecord node) with
        docstring := getDocstring node.body,
        decorators := node.decorator_list.map unparseWithFallback } := by
    show node.body.foldl (processItemCaught node.name) _ = _
    rw [hb]
    rfl
  rw [hm]
  exact ⟨(processBases_fields node.name node.bases (initClassRecord node)).1,
    (processBases_fields node.name node.bases (initClassRecord node)).2⟩

/-- C6: in filtered scanning, the per-file class list is exactly the
NodeBase-filtered extraction — a class record appears iff at least one of
its rendered base strings contains `"NodeBase"` as a substring; and a
retained class with an empty body still contributes a record with empty
`methods` and `attributes` collections rather than being omitted. -/
theorem parse_file_nodebase_filter (p : String) (nodes : List ClassDef) :
    (parse_file ⟨p, .parsed nodes⟩).classes =
      (nodes.filter (fun n => hasNodeBase (extract_class_info n))).map
        (fun n => withFile p (extract_class_info n)) ∧
    ∀ n ∈ nodes, hasNodeBase (extract_class_info n) = true → n.body = [] →
      withFile p (extract_class_info n) ∈ (parse_file ⟨p, .parsed nodes⟩).classes ∧
      (extract_class_info n).methods = [] ∧
      (extract_class_info n).attributes = [] := by
  have hcls : (parse_file ⟨p, .parsed nodes⟩).classes =
      (nodes.filter (fun n => hasNodeBase (extract_class_info n))).map
        (fun n => withFile p (extract_class_info n)) := by
    show (walkClasses p nodes ⟨[], []⟩).classes = _
    rw [walkClasses_spec]
    simp
  refine ⟨hcls, fun n hn hfilter hbody =>
    ⟨?_, (extract_empty_body n hbody).1, (extract_empty_body n hbody).2⟩⟩
  rw [hcls]
  exact List.mem_map_of_mem _ (List.mem_filter.mpr ⟨hn, hfilter⟩)

/-- The class the C6 witness uses: `class N(NodeBase): pass` with an empty
body. -/
def c6Node : ClassDef := ⟨"N", [.name "NodeBase"], [], []⟩

/-- Witness for the filter theorem: the empty NodeBase class is retained
with empty collections. -/
theorem parse_file_nodebase_filter_witness :
    withFile "f.py" (extract_class_info c6Node) ∈
      (parse_file ⟨"f.py", .parsed [c6Node]⟩).classes ∧
    (extract_class_info c6Node).methods = [] ∧
    (extract_class_info c6Node).attributes = [] :=
  (parse_file_nodebase_filter "f.py" [c6Node]).2 c6Node (by simp) rfl rfl

/-- A file whose content parses (so its per-file scan produces no error
entries in the model). -/
def isParsedFile (f : PyFile) : Bool :=
  match f.content with
  | .parsed _ => true
  | _ => false

/-- Every configured root exists and every file under it parses. -/
def allParsed (roots : List Root) : Bool :=
  roots.all (fun r =>
    match r.files with
    | none => false
    | some fs => fs.all isParsedFile)

theorem perFileErrors_nil :
    ∀ (fs : List PyFile), fs.all isParsedFile = true →
      (fs.map (fun f => (parse_file f).errors.filter
        (fun e => !strContains e.msg "Syntax error"))).flatten = [] := by
  intro fs
  induction fs with
  | nil => intro h; rfl
  | cons f rest ih =>
      intro hall
      simp only [List.all_cons, Bool.and_eq_true] at hall
      obtain ⟨hf, hrest⟩ := hall
      rw [List.map_cons, List.flatten_cons, ih hrest, List.append_nil]
      obtain ⟨fp, fc⟩ := f
      cases fc with
      | parsed ns =>
          have he : (parse_file ⟨fp, .parsed ns⟩).errors = [] :=
            congrArg FileResults.errors (walkClasses_spec fp ns ⟨[], []⟩)
          rw [he]
          rfl
      | unreadable msg => simp [isParsedFile] at hf
      | synErr msg => simp [isParsedFile] at hf
      | parseErr msg => simp [isParsedFile] at hf

theorem mapRootErrors_nil :
    ∀ (roots : List Root), allParsed roots = true →
      (roots.map rootErrors).flatten = [] := by
  intro roots
  induction roots with
  | nil => intro h; rfl
  | cons r rest ih =>
      intro hall
      simp only [allParsed, List.all_cons, Bool.and_eq_true] at hall
      obtain ⟨hr, hrest⟩ := hall
      rw [List.map_cons, List.flatten_cons, ih hrest, List.append_nil]
      cases hfs : r.files with
      | none => rw [hfs] at hr; simp at hr
      | some fs =>
          rw [hfs] at hr
          rw [rootErrors, hfs]
          exact perFileErrors_nil fs hr

/-- C10: when filtered scanning skips a class (no rendered base contains
`"NodeBase"`), the record carrying its accumulated `parsing_errors` is
dropped entirely: it is not among the per-file classes, the per-file scan
of a parsed file reports no error entries, and a whole scan over existing
roots of parsed files aggregates no errors — so the skipped class's
parsing errors appear nowhere in the `ScanResult`. -/
theorem skipped_class_errors_discarded (p : String) (nodes : List ClassDef)
    (n : ClassDef) (hmem : n ∈ nodes)
    (hskip : hasNodeBase (extract_class_info n) = false) :
    withFile p (extract_class_info n) ∉ (parse_file ⟨p, .parsed nodes⟩).classes ∧
    (parse_file ⟨p, .parsed nodes⟩).errors = [] ∧
    ∀ roots : List Root, allParsed roots = true → (scan_folders roots).errors = [] := by
  refine ⟨?_, congrArg FileResults.errors (walkClasses_spec p nodes ⟨[], []⟩), ?_⟩
  · intro hin
    have hcls : (parse_file ⟨p, .parsed nodes⟩).classes =
        (nodes.filter (fun n' => hasNodeBase (extract_class_info n'))).map
          (fun n' => withFile p (extract_class_info n')) := by
      show (walkClasses p nodes ⟨[], []⟩).classes = _
      rw [walkClasses_spec]
      simp
    rw [hcls] at hin
    obtain ⟨n', hn', heq⟩ := List.mem_map.mp hin
    have hb : (extract_class_info n').bases = (extract_class_info n).bases := by
      have h1 := congrArg ClassRecord.bases heq
      simpa [withFile] using h1
    have hf' : hasNodeBase (extract_class_info n') = true := (List.mem_filter.mp hn').2
    rw [hasNodeBase, hb] at hf'
    rw [hasNodeBase] at hskip
    rw [hf'] at hskip
    exact absurd hskip (by simp)
  · intro roots hall
    rw [(scan_folders_fields roots).2.2]
    exact mapRootErrors_nil roots hall

/-- Witness for the discarded-errors theorem: a class whose only base is
`OtherBase` (no `NodeBase` substring) is skipped, and a one-root scan of
parsed files aggregates no errors. -/
theorem skipped_class_errors_discarded_witness :
    withFile "g.py" (extract_class_info ⟨"M", [.name "OtherBase"], [], []⟩) ∉
      (parse_file ⟨"g.py", .parsed [⟨"M", [.name "OtherBase"], [], []⟩]⟩).classes ∧
    (parse_file ⟨"g.py", .parsed [⟨"M", [.name "OtherBase"], [], []⟩]⟩).errors = [] ∧
    ∀ roots : List Root, allParsed roots = true → (scan_folders roots).errors = [] :=
  skipped_class_errors_discarded "g.py" [⟨"M", [.name "OtherBase"], [], []⟩]
    ⟨"M", [.name "OtherBase"], [], []⟩ (by simp) rfl
